import Mathlib

/-!
Verification development for the feedback-analysis core of the repository:
`src/pii_filter.py`, `src/themer.py`, `src/note_generator.py`.

Strings are modelled as `List Char`.  Python regular expressions are
modelled by a small backtracking matcher (`reMatches`) whose alternative
order mirrors CPython `re` (leftmost match, greedy quantifiers, earlier
alternative first).  The LLM oracle is modelled as an explicit parameter
giving, per call, the parsed outcome of the response.
-/

/-! ## Character classes (ASCII fragment of Python `re`) -/

/-- Python `\w` on ASCII input: letters, digits, underscore. -/
def isWordCh (c : Char) : Bool :=
  ('a' ≤ c && c ≤ 'z') || ('A' ≤ c && c ≤ 'Z') || ('0' ≤ c && c ≤ '9') || c == '_'

/-- Python `\s` on ASCII input: space, tab, newline, carriage return,
vertical tab, form feed. -/
def isSpaceCh (c : Char) : Bool :=
  c == ' ' || c == '\t' || c == '\n' || c == '\r' || c == '\x0b' || c == '\x0c'

def isDigitCh (c : Char) : Bool := '0' ≤ c && c ≤ '9'

def isAlphaCh (c : Char) : Bool := ('a' ≤ c && c ≤ 'z') || ('A' ≤ c && c ≤ 'Z')

/-- Case-insensitive comparison against a lowercase letter (the module
applies every pattern with `re.IGNORECASE`). -/
def lowEq (c target : Char) : Bool := c.toLower == target

/-! ## Regular-expression abstract syntax -/

/-- The regex fragment used by `PII_PATTERNS` in `src/pii_filter.py`:
character classes, concatenation, alternation, `?`, counted repetition
(`{m,n}`, `{m,}`, `+` as `{1,}`) and the zero-width word boundary. -/
inductive RE where
  | eps : RE
  | cls (p : Char → Bool) : RE
  | wb : RE
  | seq (a b : RE) : RE
  | alt (a b : RE) : RE
  | opt (a : RE) : RE
  | rep (a : RE) (lo : Nat) (hi : Option Nat) : RE

/-- Concatenation of a list of regexes. -/
def RE.cat (l : List RE) : RE := l.foldr RE.seq RE.eps

/-- Case-insensitive literal, as used for `www.`, `http`, `+91`. -/
def RE.lit (s : List Char) : RE := RE.cat (s.map (fun c => RE.cls (fun d => lowEq d c)))

/-- Case-sensitive literal (the `aggressive` name pattern carries no
`re.IGNORECASE` flag). -/
def RE.litCS (s : List Char) : RE := RE.cat (s.map (fun c => RE.cls (fun d => d == c)))

/-- All ways a regex can match a prefix of `s`, as `(last consumed char,
remaining suffix)` pairs, in CPython backtracking priority order (greedy
first).  `prev` is the character immediately before `s` in the subject
string, used by `\b`.  `fuel` bounds recursion depth; every pattern below
consumes one character per two recursion levels, so the fuel chosen in
`reFuel` is never exhausted on the inputs considered. -/
def reMatches : Nat → RE → Option Char → List Char → List (Option Char × List Char)
  | 0, _, _, _ => []
  | _ + 1, .eps, prev, s => [(prev, s)]
  | _ + 1, .cls p, prev, s =>
    match s with
    | [] => []
    | c :: rest => if p c then [(some c, rest)] else []
  | _ + 1, .wb, prev, s =>
    let w1 := match prev with | none => false | some c => isWordCh c
    let w2 := match s with | [] => false | c :: _ => isWordCh c
    if w1 != w2 then [(prev, s)] else []
  | fuel + 1, .seq a b, prev, s =>
    (reMatches fuel a prev s).flatMap (fun st => reMatches fuel b st.1 st.2)
  | fuel + 1, .alt a b, prev, s =>
    reMatches fuel a prev s ++ reMatches fuel b prev s
  | fuel + 1, .opt a, prev, s =>
    reMatches fuel a prev s ++ [(prev, s)]
  | fuel + 1, .rep a lo hi, prev, s =>
    match hi with
    | some 0 => [(prev, s)]
    | _ =>
      let hi' : Option Nat := match hi with
        | some (h + 1) => some h
        | some 0 => some 0
        | none => none
      let more := (reMatches fuel a prev s).flatMap
        (fun st => reMatches fuel (.rep a (lo - 1) hi') st.1 st.2)
      if lo == 0 then more ++ [(prev, s)] else more

/-- Fuel sufficient for every pattern of the module on subject `s`. -/
def reFuel (s : List Char) : Nat := 4 * s.length + 200

/-- One step of `re.sub`: at the current position (with original-string
context char `prev`), take the first (= leftmost, greedy) match if any,
emit the replacement and continue after the match, else copy one char.
The patterns below never match the empty string, so a non-shrinking match
is treated as no match.  `fuel` is the remaining subject length. -/
def reSubstGo (re : RE) (repl : List Char) : Nat → Option Char → List Char → List Char
  | 0, _, _ => []
  | _ + 1, _, [] => []
  | fuel + 1, prev, s@(c :: rest) =>
    match (reMatches (reFuel s) re prev s).head? with
    | some st =>
      if st.2.length < s.length then
        repl ++ reSubstGo re repl fuel st.1 st.2
      else
        c :: reSubstGo re repl fuel (some c) rest
    | none => c :: reSubstGo re repl fuel (some c) rest

/-- `re.sub(pattern, repl, s, flags=re.IGNORECASE)` (case folding is baked
into the character classes of each pattern). -/
def reSubst (re : RE) (repl : List Char) (s : List Char) : List Char :=
  reSubstGo re repl (s.length + 1) none s

/-! ## The nine `PII_PATTERNS` of `src/pii_filter.py`, in source order -/

/-- `\b[A-Za-z0-9._%+-]+@[A-Za-z0-9.-]+\.[A-Z|a-z]{2,}\b` -/
def reEmail : RE := RE.cat
  [ .wb
  , .rep (.cls (fun c => isAlphaCh c || isDigitCh c || c == '.' || c == '_' ||
      c == '%' || c == '+' || c == '-')) 1 none
  , .cls (fun c => c == '@')
  , .rep (.cls (fun c => isAlphaCh c || isDigitCh c || c == '.' || c == '-')) 1 none
  , .cls (fun c => c == '.')
  , .rep (.cls (fun c => isAlphaCh c || c == '|')) 2 none
  , .wb ]

/-- `[-.\s]` -/
def clsPhoneSep : RE := .cls (fun c => c == '-' || c == '.' || isSpaceCh c)

/-- `\b(?:\+91[-.\s]?)?[6-9]\d{9}\b` -/
def rePhoneIn : RE := RE.cat
  [ .wb
  , .opt (RE.cat [.cls (fun c => c == '+'), RE.lit ['9', '1'], .opt clsPhoneSep])
  , .cls (fun c => '6' ≤ c && c ≤ '9')
  , .rep (.cls isDigitCh) 9 (some 9)
  , .wb ]

/-- `\b(?:\+\d{1,3}[-.\s]?)?\(?\d{3}\)?[-.\s]?\d{3}[-.\s]?\d{4}\b` -/
def rePhoneGen : RE := RE.cat
  [ .wb
  , .opt (RE.cat [.cls (fun c => c == '+'), .rep (.cls isDigitCh) 1 (some 3), .opt clsPhoneSep])
  , .opt (.cls (fun c => c == '('))
  , .rep (.cls isDigitCh) 3 (some 3)
  , .opt (.cls (fun c => c == ')'))
  , .opt clsPhoneSep
  , .rep (.cls isDigitCh) 3 (some 3)
  , .opt clsPhoneSep
  , .rep (.cls isDigitCh) 4 (some 4)
  , .wb ]

/-- `https?://[^\s]+` -/
def reUrl : RE := RE.cat
  [ RE.lit ['h', 't', 't', 'p']
  , .opt (.cls (fun c => lowEq c 's'))
  , RE.lit [':', '/', '/']
  , .rep (.cls (fun c => !isSpaceCh c)) 1 none ]

/-- `www\.[^\s]+` -/
def reUrlWww : RE := RE.cat
  [ RE.lit ['w', 'w', 'w', '.']
  , .rep (.cls (fun c => !isSpaceCh c)) 1 none ]

/-- `\b[A-Z]{5}[0-9]{4}[A-Z]\b` (matched with `re.IGNORECASE`, hence
`isAlphaCh`). -/
def rePan : RE := RE.cat
  [ .wb
  , .rep (.cls isAlphaCh) 5 (some 5)
  , .rep (.cls isDigitCh) 4 (some 4)
  , .cls isAlphaCh
  , .wb ]

/-- `[\s-]` -/
def clsAadhaarSep : RE := .cls (fun c => isSpaceCh c || c == '-')

/-- `\b\d{4}[\s-]?\d{4}[\s-]?\d{4}\b` -/
def reAadhaar : RE := RE.cat
  [ .wb
  , .rep (.cls isDigitCh) 4 (some 4)
  , .opt clsAadhaarSep
  , .rep (.cls isDigitCh) 4 (some 4)
  , .opt clsAadhaarSep
  , .rep (.cls isDigitCh) 4 (some 4)
  , .wb ]

/-- `\b\d{8,18}\b` -/
def reAccount : RE := RE.cat
  [ .wb, .rep (.cls isDigitCh) 8 (some 18), .wb ]

/-- `\b[a-zA-Z0-9._-]+@[a-zA-Z]{3,}\b` -/
def reUpi : RE := RE.cat
  [ .wb
  , .rep (.cls (fun c => isAlphaCh c || isDigitCh c || c == '.' || c == '_' || c == '-')) 1 none
  , .cls (fun c => c == '@')
  , .rep (.cls isAlphaCh) 3 none
  , .wb ]

/-- `PII_PATTERNS`: the ordered pattern/replacement list. -/
def PII_PATTERNS : List (RE × List Char) :=
  [ (reEmail, "[EMAIL]".toList)
  , (rePhoneIn, "[PHONE]".toList)
  , (rePhoneGen, "[PHONE]".toList)
  , (reUrl, "[URL]".toList)
  , (reUrlWww, "[URL]".toList)
  , (rePan, "[PAN]".toList)
  , (reAadhaar, "[AADHAAR]".toList)
  , (reAccount, "[ACCOUNT]".toList)
  , (reUpi, "[UPI]".toList) ]

/-- `\b(?:Mr|Mrs|Ms|Dr|Shri|Smt)\.?\s+[A-Z][a-z]+(?:\s+[A-Z][a-z]+)?\b`
(the `aggressive` branch; applied case-sensitively, no flag). -/
def reName : RE := RE.cat
  [ .wb
  , .alt (RE.litCS ['M', 'r'])
      (.alt (RE.litCS ['M', 'r', 's'])
        (.alt (RE.litCS ['M', 's'])
          (.alt (RE.litCS ['D', 'r'])
            (.alt (RE.litCS ['S', 'h', 'r', 'i']) (RE.litCS ['S', 'm', 't'])))))
  , .opt (.cls (fun c => c == '.'))
  , .rep (.cls isSpaceCh) 1 none
  , .cls (fun c => 'A' ≤ c && c ≤ 'Z')
  , .rep (.cls (fun c => 'a' ≤ c && c ≤ 'z')) 1 none
  , .opt (RE.cat
      [ .rep (.cls isSpaceCh) 1 none
      , .cls (fun c => 'A' ≤ c && c ≤ 'Z')
      , .rep (.cls (fun c => 'a' ≤ c && c ≤ 'z')) 1 none ])
  , .wb ]

/-! ## `filter_pii` -/

/-- `re.sub(r'\s+', ' ', cleaned)`: collapse each maximal whitespace run
to a single space (a whitespace char followed by more whitespace is
dropped; the last char of a run is emitted as a single space). -/
def collapseWs : List Char → List Char
  | [] => []
  | a :: t =>
    match t with
    | [] => [if isSpaceCh a then ' ' else a]
    | b :: _ =>
      if isSpaceCh a && isSpaceCh b then collapseWs t
      else (if isSpaceCh a then ' ' else a) :: collapseWs t

/-- Python `str.strip()` (whitespace at both ends removed). -/
def stripWs (l : List Char) : List Char :=
  ((l.dropWhile (fun c => isSpaceCh c)).reverse.dropWhile (fun c => isSpaceCh c)).reverse

/-- `filter_pii(text, aggressive)` from `src/pii_filter.py`: the empty
(falsy) check, the nine ordered case-insensitive substitutions, the
optional aggressive name substitution, whitespace collapse, strip. -/
def filter_pii (text : List Char) (aggressive : Bool := false) : List Char :=
  if text = [] then []
  else
    let cleaned := PII_PATTERNS.foldl (fun acc pr => reSubst pr.1 pr.2 acc) text
    let cleaned := if aggressive then reSubst reName "[NAME]".toList cleaned else cleaned
    stripWs (collapseWs cleaned)

/-! ## `src/themer.py`: theme discovery

The LLM oracle is a black box; a run is modelled by passing the parsed
outcome of each oracle response explicitly. -/

/-- `FALLBACK_THEMES` (dict literal, insertion order preserved). -/
def FALLBACK_THEMES : List (String × String) :=
  [ ("App Performance", "App crashes, freezing, slow loading, bugs, technical issues")
  , ("User Experience", "UI/UX design, navigation, ease of use, feature discoverability")
  , ("Trading & Stocks", "Stock trading, buying/selling, price accuracy, order execution")
  , ("Account & KYC", "Account setup, KYC verification, login issues, account blocking")
  , ("Customer Support", "Support response, issue resolution, communication quality") ]

/-- Outcome of the discovery oracle call, after `json.loads`:
`ok themes` when the response parsed as a JSON object (an ordered
key/value list), `fail` for a transport error, a JSON parse error or a
non-object JSON value (all reach the same `except` handler). -/
inductive DiscoveryOutcome where
  | ok (themes : List (String × String)) : DiscoveryOutcome
  | fail : DiscoveryOutcome

/-- `discover_themes(reviews, max_themes, sample_size)` from
`src/themer.py`.  The random sample and the prompt only influence the
oracle text, not the control flow, so they are not modelled; `oracle` is
the parsed outcome of the single oracle call. -/
def discover_themes (reviews : List String) (max_themes : Nat)
    (oracle : DiscoveryOutcome) : List (String × String) :=
  if reviews = [] then FALLBACK_THEMES
  else
    match oracle with
    | .ok themes =>
      if 0 < themes.length then
        if max_themes < themes.length then themes.take max_themes else themes
      else FALLBACK_THEMES
    | .fail => FALLBACK_THEMES

/-! ## `src/themer.py`: batch classification -/

/-- One element of a successfully parsed batch response.  `index` is the
1-based in-batch index (the record must have an integer `index`, else the
mutation loop raises and the batch takes the generic handler); the other
keys are read later with `dict.get`, hence optional. -/
structure RawRec where
  index : Int
  theme : Option String
  sentiment : Option String
  confidence : Option String
deriving DecidableEq, Repr

/-- Outcome of one batch oracle call: `ok recs` when `json.loads`
succeeded and every record passed the index-adjustment loop, `parseFail`
for `json.JSONDecodeError`, `otherFail` for any other exception
(transport failure, missing or ill-typed `index`, non-list JSON, ...). -/
inductive BatchOutcome where
  | ok (recs : List RawRec) : BatchOutcome
  | parseFail : BatchOutcome
  | otherFail : BatchOutcome
deriving DecidableEq

/-- A classification record accumulated into `all_results`. -/
structure ClsRec where
  index : Int
  global_index : Int
  theme : Option String
  sentiment : Option String
  confidence : Option String
deriving DecidableEq, Repr

/-- Contribution of the batch starting at offset `i` with `batchLen`
items: the `try` body on success, the `json.JSONDecodeError` handler on a
parse failure (one degraded record per batch item), nothing on any other
exception (`continue`). -/
def processBatch (i : Nat) (batchLen : Nat) (outcome : BatchOutcome) : List ClsRec :=
  match outcome with
  | .ok recs => recs.map (fun r =>
      { index := r.index, global_index := (i : Int) + r.index - 1,
        theme := r.theme, sentiment := r.sentiment, confidence := r.confidence })
  | .parseFail => (List.range batchLen).map (fun (j : Nat) =>
      { index := (j : Int) + 1, global_index := (i : Int) + (j : Int),
        theme := some "User Experience", sentiment := some "neutral",
        confidence := some "low" })
  | .otherFail => []

/-- The `for i in range(0, len(reviews), batch_size)` loop, with
`batch_size = b1 + 1`.  `oracle` maps a batch start offset to the outcome
of that batch's oracle call.  `fuel` makes the recursion structural; each
batch consumes at least one review, so `fuel = reviews.length` at the top
call is never exhausted (the `0, _ :: _` case is unreachable), and
`(r :: rest).drop (b1 + 1) = rest.drop b1` is the next loop state. -/
def classifyGo (oracle : Nat → BatchOutcome) (b1 : Nat) :
    Nat → List String → Nat → List ClsRec
  | _, [], _ => []
  | 0, _ :: _, _ => []
  | fuel + 1, r :: rest, i =>
    processBatch i ((r :: rest).take (b1 + 1)).length (oracle i)
      ++ classifyGo oracle b1 fuel (rest.drop b1) (i + (b1 + 1))

/-- `classify_reviews_batch(reviews, themes, batch_size)` from
`src/themer.py`.  `themes` only shapes the prompt text, never the result,
and is therefore not a parameter of the model.  `batch_size = 0` would
raise `ValueError` inside `range` in Python (unreachable: the default is
20); the model returns `[]` there. -/
def classify_reviews_batch (reviews : List String) (batch_size : Nat)
    (oracle : Nat → BatchOutcome) : List ClsRec :=
  if reviews = [] then []
  else
    match batch_size with
    | 0 => []
    | b1 + 1 => classifyGo oracle b1 reviews.length reviews 0

/-- A batch outcome that does not lose records: not a transport-style
failure, and on successful parse the record indices are exactly
`1 .. len` in some order (one record per batch item). -/
def outcomeGood (o : BatchOutcome) (len : Nat) : Bool :=
  match o with
  | .ok recs => (recs.map (fun r => r.index)).isPerm
      ((List.range len).map (fun (j : Nat) => (j : Int) + 1))
  | .parseFail => true
  | .otherFail => false

/-- `outcomeGood` for every batch of a run, following the loop structure
of `classifyGo`. -/
def goodOracle (oracle : Nat → BatchOutcome) (b1 : Nat) :
    Nat → List String → Nat → Bool
  | _, [], _ => true
  | 0, _ :: _, _ => true
  | fuel + 1, r :: rest, i =>
    outcomeGood (oracle i) ((r :: rest).take (b1 + 1)).length &&
      goodOracle oracle b1 fuel (rest.drop b1) (i + (b1 + 1))

/-- `{c['global_index']: c for c in classifications}` followed by lookup:
a later record with the same global index overwrites an earlier one. -/
def classification_map (l : List ClsRec) (g : Int) : Option ClsRec :=
  l.reverse.find? (fun c => c.global_index == g)

/-- The mapping loop of `extract_themes_from_reviews` (step 4): for each
dataframe index `0 ≤ idx < n`, the covering record's theme and sentiment
(`dict.get` defaults), else the `Unknown`/`neutral` backfill. -/
def extract_assign (n : Nat) (l : List ClsRec) : List (String × String) :=
  (List.range n).map (fun (idx : Nat) =>
    match classification_map l (idx : Int) with
    | some c => (c.theme.getD "Unknown", c.sentiment.getD "neutral")
    | none => ("Unknown", "neutral"))

/-! ## `src/note_generator.py` -/

/-- Round half to even, as Python `round` does on ties. -/
def roundHalfEven (q : ℚ) : ℤ :=
  let f := ⌊q⌋
  let r := q - (f : ℚ)
  if r < 1 / 2 then f
  else if 1 / 2 < r then f + 1
  else if f % 2 = 0 then f else f + 1

/-- Python `round(x, 1)`. -/
def pyRound1 (q : ℚ) : ℚ := (roundHalfEven (10 * q) : ℚ) / 10

/-- Python `round(x, 2)`. -/
def pyRound2 (q : ℚ) : ℚ := (roundHalfEven (100 * q) : ℚ) / 100

/-- Stable insertion: `x` is placed before the first element it strictly
precedes (`lt x y`), hence after every earlier element it ties with. -/
def stableInsert (lt : α → α → Bool) (x : α) : List α → List α
  | [] => [x]
  | y :: ys => if lt x y then x :: y :: ys else y :: stableInsert lt x ys

/-- Stable sort by the strict order `lt`: elements the order does not
separate keep their input order.  This models a pandas `sort_values`;
pandas does not guarantee a tie order (its default quicksort), so the
stable order is the modelling choice, recorded where it matters. -/
def stableSort (lt : α → α → Bool) (l : List α) : List α :=
  l.foldl (fun acc x => stableInsert lt x acc) []

/-- The distinct values of `l` in order of first appearance. -/
def firstKeys (l : List String) : List String :=
  l.foldl (fun acc t => if t ∈ acc then acc else acc ++ [t]) []

/-- `Series.value_counts()`: distinct values with their multiplicities,
sorted by count descending (ties in first-appearance order, see
`stableSort`). -/
def value_counts (l : List String) : List (String × Nat) :=
  stableSort (fun a b => b.2 < a.2)
    ((firstKeys l).map (fun t => (t, (l.filter (fun x => x == t)).length)))

/-- One dataframe row as used by `select_top_themes` / `extract_quotes`:
the classified review text with its `theme` and `sentiment_label` columns;
`rating`, `date` and `source` may be absent (`None`/missing column). -/
structure Row where
  text : List Char
  theme : String
  sentiment_label : String
  rating : Option Int
  date : Option String
  source : Option String
deriving DecidableEq, Repr

/-- The dataframe: its rows plus whether a `rating` column exists. -/
structure Frame where
  rows : List Row
  has_rating : Bool
deriving DecidableEq, Repr

/-- The per-theme dict built by `select_top_themes`. -/
structure ThemeStat where
  name : String
  count : Nat
  percentage : ℚ
  avg_rating : Option ℚ
  sentiments : List (String × Nat)
  negative_count : Nat
deriving DecidableEq, Repr

/-- `select_top_themes(df, n)` from `src/note_generator.py`: drop the two
sentinel themes, count themes (`value_counts`), keep the top `n`
(`head(n)`), and build each theme dict.  A pandas `mean` over an
all-missing column is `NaN`; that case is modelled as `none`. -/
def select_top_themes (df : Frame) (n : Nat) : List ThemeStat :=
  let issue_rows := df.rows.filter
    (fun r => !(r.theme == "Unknown" || r.theme == "No Issue"))
  if issue_rows = [] then []
  else
    let top := (value_counts (issue_rows.map (fun r => r.theme))).take n
    top.map (fun pr =>
      let theme_rows := issue_rows.filter (fun r => r.theme == pr.1)
      let sentiments := value_counts (theme_rows.map (fun r => r.sentiment_label))
      let avg_rating : Option ℚ :=
        if df.has_rating then
          let rs := theme_rows.filterMap (fun r => r.rating)
          if rs = [] then none
          else some (pyRound1 ((rs.map (fun x => (x : ℚ))).sum / (rs.length : ℚ)))
        else none
      { name := pr.1
        count := pr.2
        percentage := pyRound1 ((pr.2 : ℚ) / (df.rows.length : ℚ) * 100)
        avg_rating := avg_rating
        sentiments := sentiments
        negative_count := ((sentiments.lookup "negative").getD 0) })

/-- pandas `Series.median` of the (natural-number) text lengths: middle
element of the sorted list, or the mean of the two middle elements. -/
def medianQ (l : List Nat) : ℚ :=
  let s := stableSort (fun a b => a < b) l
  if l.length = 0 then 0
  else if l.length % 2 = 1 then (s.getD (l.length / 2) 0 : ℚ)
  else ((s.getD (l.length / 2 - 1) 0 : ℚ) + (s.getD (l.length / 2) 0 : ℚ)) / 2

/-- A quote dict built by `extract_quotes`. -/
structure Quote where
  text : List Char
  sentiment : String
  rating : Option Int
  date : Option String
  source : String
deriving DecidableEq, Repr

/-- The body of the inner `for _, row in good_length.iterrows()` loop of
`extract_quotes`: stop once `n` quotes are collected; redact; discard
quotes below 15 chars; truncate above 200 chars to 197 chars plus `...`;
append the quote dict. -/
def quoteStep (n : Nat) (sentiment : String) (qs : List Quote) (pr : Row × Nat) :
    List Quote :=
  if n ≤ qs.length then qs
  else
    let quote_text := filter_pii pr.1.text
    if quote_text.length < 15 then qs
    else
      let quote_text :=
        if 200 < quote_text.length then quote_text.take 197 ++ "...".toList
        else quote_text
      qs ++ [{ text := quote_text
               sentiment := sentiment
               rating := pr.1.rating
               date := pr.1.date.map (fun d => d.take 10)
               source := pr.1.source.getD "Unknown" }]

/-- The per-sentiment-bucket iteration of `extract_quotes`: skip the
bucket when enough quotes are collected or the bucket is empty; prefer
candidates of length 20–500 (falling back to the whole bucket); visit
candidates by distance of their text length from the bucket median. -/
def quoteBucket (theme_rows : List Row) (n : Nat) (quotes : List Quote)
    (sentiment : String) : List Quote :=
  if n ≤ quotes.length then quotes
  else
    let sentiment_rows := theme_rows.filter (fun r => r.sentiment_label == sentiment)
    if sentiment_rows = [] then quotes
    else
      let withLen : List (Row × Nat) := sentiment_rows.map (fun r => (r, r.text.length))
      let good0 : List (Row × Nat) := withLen.filter (fun pr => 20 ≤ pr.2 && pr.2 ≤ 500)
      let good := if good0 = [] then withLen else good0
      let med := medianQ (good.map (fun pr => pr.2))
      let sorted := stableSort
        (fun a b => |(a.2 : ℚ) - med| < |(b.2 : ℚ) - med|) good
      sorted.foldl (quoteStep n sentiment) quotes

/-- `extract_quotes(df, theme, n)` from `src/note_generator.py`. -/
def extract_quotes (df : Frame) (theme : String) (n : Nat) : List Quote :=
  let theme_rows := df.rows.filter (fun r => r.theme == theme)
  if theme_rows = [] then []
  else
    ((["negative", "neutral", "positive"].foldl
      (quoteBucket theme_rows n) []).take n)

/-! ## `_generate_fallback_actions` from `src/note_generator.py` -/

/-- Does `s` start with `pat`? -/
def leadsWith : List Char → List Char → Bool
  | [], _ => true
  | _ :: _, [] => false
  | a :: as, b :: bs => a == b && leadsWith as bs

/-- Python `pat in hay` on strings: contiguous substring test. -/
def containsSub (pat : List Char) : List Char → Bool
  | [] => leadsWith pat []
  | hay@(_ :: t) => leadsWith pat hay || containsSub pat t

def toLowerList (l : List Char) : List Char := l.map Char.toLower

/-- A `{title, description, effort}` template value. -/
structure ActionTemplate where
  title : String
  description : String
  effort : String
deriving DecidableEq, Repr

/-- The `default` entry of `action_templates`. -/
def defaultTemplate : ActionTemplate :=
  { title := "Address user complaints"
    description := "Review user feedback and prioritize fixes based on impact."
    effort := "medium" }

/-- `action_templates`, in dict insertion order (iteration order of the
matching loop). -/
def action_templates : List (String × ActionTemplate) :=
  [ ("Customer Support",
     { title := "Improve customer support response times"
       description := "Implement ticket prioritization and set SLA targets for response times. Consider adding live chat support."
       effort := "medium" })
  , ("App",
     { title := "Fix app stability and performance issues"
       description := "Prioritize crash fixes and performance optimization. Add crash reporting for better debugging."
       effort := "medium" })
  , ("Withdrawal",
     { title := "Streamline withdrawal process"
       description := "Review and optimize the withdrawal pipeline. Add status tracking and proactive notifications."
       effort := "large" })
  , ("Data",
     { title := "Improve data accuracy and display"
       description := "Audit data sources for accuracy. Fix display issues and add missing indicators."
       effort := "medium" })
  , ("default", defaultTemplate) ]

/-- The template-matching loop: start from the default, take the first
key that is a case-insensitive substring of the theme name. -/
def chooseTemplate (name : String) : ActionTemplate :=
  match action_templates.find?
      (fun kv => containsSub (toLowerList kv.1.toList) (toLowerList name.toList)) with
  | some kv => kv.2
  | none => defaultTemplate

/-- An action dict. -/
structure ActionItem where
  title : String
  description : String
  priority : String
  effort : String
  addresses_theme : String
deriving DecidableEq, Repr

/-- `_generate_fallback_actions(themes)` from `src/note_generator.py`
(the deterministic no-LLM fallback of `generate_action_ideas`). -/
def generate_fallback_actions (themes : List ThemeStat) : List ActionItem :=
  (themes.take 3).map (fun theme =>
    let template := chooseTemplate theme.name
    { title := template.title
      description := template.description
      priority := if 10 < theme.negative_count then "high" else "medium"
      effort := template.effort
      addresses_theme := theme.name })

/-! ## Spec-side selection order (for the refinement comparison of the
top-theme claim) -/

/-- The position of `t` in the discovery-order list (list length when
absent). -/
def discoveryPos (discovered : List String) (t : String) : Nat :=
  discovered.indexOf t

/-- Top-theme selection as the spec words it: exclude the sentinels,
count each remaining theme, sort descending by count with ties broken by
discovery order, truncate to `n`, return the names. -/
def claimedTopThemeNames (discovered : List String) (rows : List Row)
    (n : Nat) : List String :=
  let issue_rows := rows.filter
    (fun r => !(r.theme == "Unknown" || r.theme == "No Issue"))
  let keyed := (firstKeys (issue_rows.map (fun r => r.theme))).map
    (fun t => (t, (issue_rows.filter (fun r => r.theme == t)).length))
  let sorted := stableSort
    (fun a b => b.2 < a.2 ||
      (a.2 == b.2 && discoveryPos discovered a.1 < discoveryPos discovered b.1)) keyed
  (sorted.take n).map (fun pr => pr.1)

/-! ## Whitespace normalization of `filter_pii` -/

/-- No run of two or more consecutive whitespace characters. -/
def noDoubleSpace : List Char → Bool
  | [] => true
  | [_] => true
  | a :: b :: t => !(isSpaceCh a && isSpaceCh b) && noDoubleSpace (b :: t)

def noLeadingSpace (l : List Char) : Bool :=
  match l.head? with
  | none => true
  | some c => !isSpaceCh c

def noTrailingSpace (l : List Char) : Bool :=
  match l.getLast? with
  | none => true
  | some c => !isSpaceCh c

theorem noDoubleSpace_cons (x : Char) (l : List Char) :
    noDoubleSpace (x :: l) =
      ((match l.head? with
        | none => true
        | some z => !(isSpaceCh x && isSpaceCh z)) && noDoubleSpace l) := by
  cases l <;> simp [noDoubleSpace]

theorem noDoubleSpace_iff_chain (l : List Char) :
    noDoubleSpace l = true ↔
      List.Chain' (fun a b : Char => (!(isSpaceCh a && isSpaceCh b)) = true) l := by
  induction l with
  | nil => simp [noDoubleSpace]
  | cons x l ih =>
    rw [noDoubleSpace_cons, List.chain'_cons']
    cases h : l.head? <;> simp [h, ih]

theorem collapseWs_cons_cons_pos (a b : Char) (t : List Char)
    (hab : (isSpaceCh a && isSpaceCh b) = true) :
    collapseWs (a :: b :: t) = collapseWs (b :: t) := by
  rw [collapseWs]
  simp [hab]

theorem collapseWs_cons_cons_neg (a b : Char) (t : List Char)
    (hab : ¬(isSpaceCh a && isSpaceCh b) = true) :
    collapseWs (a :: b :: t) = (if isSpaceCh a then ' ' else a) :: collapseWs (b :: t) := by
  rw [collapseWs]
  simp [hab]

theorem collapseWs_head (a : Char) (t : List Char) :
    (collapseWs (a :: t)).head? = some (if isSpaceCh a then ' ' else a) := by
  induction t generalizing a with
  | nil => simp [collapseWs]
  | cons b t ih =>
    by_cases hab : (isSpaceCh a && isSpaceCh b) = true
    · have ha : isSpaceCh a = true := by
        cases hA : isSpaceCh a <;> simp [hA] at hab ⊢
      have hb : isSpaceCh b = true := by
        cases hB : isSpaceCh b <;> simp [hB] at hab ⊢
      rw [collapseWs_cons_cons_pos a b t hab, ih b, hb, ha]
      simp
    · rw [collapseWs_cons_cons_neg a b t hab]
      simp

theorem noDoubleSpace_collapseWs (l : List Char) : noDoubleSpace (collapseWs l) = true := by
  induction l with
  | nil => simp [collapseWs, noDoubleSpace]
  | cons a t ih =>
    cases t with
    | nil => simp [collapseWs, noDoubleSpace]
    | cons b t2 =>
      by_cases hab : (isSpaceCh a && isSpaceCh b) = true
      · rw [collapseWs_cons_cons_pos a b t2 hab]
        exact ih
      · rw [collapseWs_cons_cons_neg a b t2 hab]
        rw [noDoubleSpace_cons, collapseWs_head]
        have hpair : (!(isSpaceCh (if isSpaceCh a then ' ' else a) &&
            isSpaceCh (if isSpaceCh b then ' ' else b))) = true := by
          cases hA : isSpaceCh a <;> cases hB : isSpaceCh b <;>
            simp [hA, hB] at hab ⊢
        simp only [hpair]
        simpa using ih

theorem noDoubleSpace_tail (x : Char) (l : List Char)
    (h : noDoubleSpace (x :: l) = true) : noDoubleSpace l = true := by
  rw [noDoubleSpace_cons] at h
  exact (Bool.and_eq_true_iff.mp h).2

theorem noDoubleSpace_dropWhile (p : Char → Bool) (l : List Char)
    (h : noDoubleSpace l = true) : noDoubleSpace (l.dropWhile p) = true := by
  induction l with
  | nil => simpa using h
  | cons a t ih =>
    by_cases hp : p a = true
    · rw [List.dropWhile_cons_of_pos hp]
      exact ih (noDoubleSpace_tail a t h)
    · rw [List.dropWhile_cons_of_neg hp]
      exact h

theorem noDoubleSpace_reverse (l : List Char)
    (h : noDoubleSpace l = true) : noDoubleSpace l.reverse = true := by
  rw [noDoubleSpace_iff_chain] at h ⊢
  rw [List.chain'_reverse]
  refine List.Chain'.imp ?_ h
  intro a b hab
  show (!(isSpaceCh b && isSpaceCh a)) = true
  simpa [Bool.and_comm] using hab

theorem dropWhile_head_not (p : Char → Bool) (l : List Char) (c : Char)
    (h : (l.dropWhile p).head? = some c) : p c = false := by
  induction l with
  | nil => simp at h
  | cons a t ih =>
    by_cases hp : p a = true
    · rw [List.dropWhile_cons_of_pos hp] at h
      exact ih h
    · rw [List.dropWhile_cons_of_neg hp] at h
      simp at h
      rw [← h]
      simpa using hp

theorem noLeadingSpace_stripWs (l : List Char) : noLeadingSpace (stripWs l) = true := by
  unfold stripWs noLeadingSpace
  rw [List.head?_reverse]
  cases hX : (((l.dropWhile (fun c => isSpaceCh c)).reverse).dropWhile
      (fun c => isSpaceCh c)).getLast? with
  | none => simp
  | some c =>
    have hne : ((l.dropWhile (fun c => isSpaceCh c)).reverse).dropWhile
        (fun c => isSpaceCh c) ≠ [] := by
      intro he
      rw [he] at hX
      simp at hX
    obtain ⟨pre, hpre⟩ := List.dropWhile_suffix
      (l := (l.dropWhile (fun c => isSpaceCh c)).reverse) (p := fun c => isSpaceCh c)
    have hlast : ((l.dropWhile (fun c => isSpaceCh c)).reverse).getLast? = some c := by
      rw [← hpre, List.getLast?_append_of_ne_nil _ hne]
      exact hX
    rw [List.getLast?_reverse] at hlast
    have := dropWhile_head_not (fun c => isSpaceCh c) l c hlast
    simp [this]

theorem noTrailingSpace_stripWs (l : List Char) : noTrailingSpace (stripWs l) = true := by
  unfold stripWs noTrailingSpace
  rw [List.getLast?_reverse]
  cases hX : (((l.dropWhile (fun c => isSpaceCh c)).reverse).dropWhile
      (fun c => isSpaceCh c)).head? with
  | none => simp
  | some c =>
    have := dropWhile_head_not (fun c => isSpaceCh c)
      ((l.dropWhile (fun c => isSpaceCh c)).reverse) c hX
    simp [this]

theorem noDoubleSpace_stripWs (l : List Char)
    (h : noDoubleSpace l = true) : noDoubleSpace (stripWs l) = true := by
  unfold stripWs
  exact noDoubleSpace_reverse _
    (noDoubleSpace_dropWhile _ _ (noDoubleSpace_reverse _ (noDoubleSpace_dropWhile _ _ h)))

/-- C10: for every input string, the output of `filter_pii` has no leading
or trailing whitespace and no run of two or more consecutive whitespace
characters, and the empty (falsy) input yields the empty string. -/
theorem filter_pii_whitespace_normalized (t : List Char) :
    noLeadingSpace (filter_pii t) = true ∧ noTrailingSpace (filter_pii t) = true ∧
    noDoubleSpace (filter_pii t) = true ∧ filter_pii [] = [] := by
  have hpii : ∀ u : List Char, noLeadingSpace (filter_pii u) = true ∧
      noTrailingSpace (filter_pii u) = true ∧ noDoubleSpace (filter_pii u) = true := by
    intro u
    unfold filter_pii
    by_cases hu : u = []
    · simp [hu, noLeadingSpace, noTrailingSpace, noDoubleSpace]
    · simp only [hu, if_false]
      refine ⟨noLeadingSpace_stripWs _, noTrailingSpace_stripWs _, ?_⟩
      exact noDoubleSpace_stripWs _ (noDoubleSpace_collapseWs _)
  exact ⟨(hpii t).1, (hpii t).2.1, (hpii t).2.2, by simp [filter_pii]⟩

/-- C2: PII redaction is not idempotent.  On `"1234  5678 9012"` (two
spaces after the first group) no pattern matches — the Aadhaar pattern
allows at most one separator character between groups — so the first
application only collapses the whitespace; the collapsed text then
matches the Aadhaar pattern, and the second application rewrites it to
`"[AADHAAR]"`. -/
theorem filter_pii_not_idempotent :
    filter_pii "1234  5678 9012".toList = "1234 5678 9012".toList ∧
    filter_pii (filter_pii "1234  5678 9012".toList) = "[AADHAAR]".toList ∧
    filter_pii (filter_pii "1234  5678 9012".toList) ≠
      filter_pii "1234  5678 9012".toList := by
  refine ⟨by decide, by decide, by decide⟩

/-- C9: theme discovery is total in the sense that every failure outcome
(and the empty corpus, independently of the oracle — no call is made)
lands on the fixed fallback catalog; an empty parsed object also falls
back. -/
theorem discover_themes_total :
    (∀ (o o' : DiscoveryOutcome) (maxT : Nat),
      discover_themes [] maxT o = discover_themes [] maxT o' ∧
      discover_themes [] maxT o = FALLBACK_THEMES) ∧
    (∀ (reviews : List String) (maxT : Nat),
      discover_themes reviews maxT .fail = FALLBACK_THEMES ∧
      discover_themes reviews maxT (.ok []) = FALLBACK_THEMES) := by
  constructor
  · intro o o' maxT
    simp [discover_themes]
  · intro reviews maxT
    by_cases h : reviews = [] <;> simp [discover_themes, h]

/-- C3 counterexample: for `max_themes = 2` the fallback path returns the
whole 5-entry catalog, violating the claimed bound on the empty corpus. -/
theorem discover_themes_bound_counterexample :
    ¬ ((discover_themes [] 2 .fail).length ≤ 2) := by decide

/-- C3 (amended): the result of discovery is bounded by
`max max_themes 5` (5 = size of the fallback catalog), and by
`max_themes` itself on the successful-oracle path with a non-empty parsed
object; the original bound therefore holds whenever `max_themes ≥ 5`, in
particular at the default `MAX_THEMES = 5`. -/
theorem discover_themes_bound (reviews : List String) (maxT : Nat)
    (o : DiscoveryOutcome) :
    (discover_themes reviews maxT o).length ≤ max maxT FALLBACK_THEMES.length ∧
    (∀ t ts, reviews ≠ [] → o = .ok (t :: ts) →
      (discover_themes reviews maxT o).length ≤ maxT) := by
  constructor
  · by_cases h : reviews = []
    · simp [discover_themes, h]
    · cases o with
      | fail => simp [discover_themes, h]
      | ok themes =>
        by_cases hlen : 0 < themes.length
        · by_cases htrunc : maxT < themes.length
          · simp [discover_themes, h, hlen, htrunc]
          · simp only [discover_themes, h, if_false, hlen, if_true, htrunc]
            omega
        · simp [discover_themes, h, hlen]
  · intro t ts hrev ho
    subst ho
    by_cases htrunc : maxT < (t :: ts).length
    · simp only [List.length_cons] at htrunc
      simp [discover_themes, hrev, htrunc, List.length_take]
    · simp only [List.length_cons] at htrunc
      simp [discover_themes, hrev, htrunc]
      omega

/-- Witness for the amended C3 bound at a concrete successful run. -/
theorem discover_themes_bound_witness :
    (discover_themes ["r"] 1 (.ok [("A", "a"), ("B", "b")])).length ≤ 1 :=
  (discover_themes_bound ["r"] 1 (.ok [("A", "a"), ("B", "b")])).2
    ("A", "a") [("B", "b")] (by decide) rfl

/-! ## Failure handling of the batch classifier -/

/-- C5: the two failure kinds are handled asymmetrically.  When the batch
at offset `i` fails JSON parsing, the run result is that batch's degraded
block — exactly one record per batch item, each with theme
`"User Experience"`, sentiment `"neutral"`, confidence `"low"` and the
in-batch-consistent global index — followed by the remaining batches;
when that batch fails with any other exception, it contributes no record
at all. -/
theorem classify_failure_asymmetry (b1 fuel : Nat) (oracle : Nat → BatchOutcome)
    (r : String) (rest : List String) (i : Nat) :
    (oracle i = .parseFail →
      ∃ pre,
        classifyGo oracle b1 (fuel + 1) (r :: rest) i =
          pre ++ classifyGo oracle b1 fuel (rest.drop b1) (i + (b1 + 1)) ∧
        pre.length = ((r :: rest).take (b1 + 1)).length ∧
        ∀ c ∈ pre, c.theme = some "User Experience" ∧ c.sentiment = some "neutral" ∧
          c.confidence = some "low" ∧ c.global_index = (i : Int) + (c.index - 1)) ∧
    (oracle i = .otherFail →
      classifyGo oracle b1 (fuel + 1) (r :: rest) i =
        classifyGo oracle b1 fuel (rest.drop b1) (i + (b1 + 1))) := by
  constructor
  · intro h
    refine ⟨processBatch i ((r :: rest).take (b1 + 1)).length (oracle i), rfl, ?_, ?_⟩
    · rw [h]
      exact (List.length_map _ _).trans (List.length_range _)
    · intro c hc
      rw [h] at hc
      simp only [processBatch, List.mem_map, List.mem_range] at hc
      obtain ⟨j, _, rfl⟩ := hc
      refine ⟨rfl, rfl, rfl, ?_⟩
      simp
  · intro h
    show processBatch _ _ _ ++ _ = _
    rw [h]
    simp [processBatch]

/-- Witness: a two-item corpus with batch size 2; the parse-failing batch
yields its degraded block, the transport-failing batch yields nothing. -/
theorem classify_failure_asymmetry_witness :
    (∃ pre,
      classifyGo (fun _ => BatchOutcome.parseFail) 1 2 ["a", "b"] 0 =
        pre ++ classifyGo (fun _ => BatchOutcome.parseFail) 1 1 (["b"].drop 1) 2 ∧
      pre.length = ((["a", "b"]).take 2).length ∧
      ∀ c ∈ pre, c.theme = some "User Experience" ∧ c.sentiment = some "neutral" ∧
        c.confidence = some "low" ∧ c.global_index = (0 : Int) + (c.index - 1)) ∧
    classifyGo (fun _ => BatchOutcome.otherFail) 1 2 ["a", "b"] 0 =
      classifyGo (fun _ => BatchOutcome.otherFail) 1 1 (["b"].drop 1) 2 :=
  ⟨(classify_failure_asymmetry 1 1 (fun _ => BatchOutcome.parseFail) "a" ["b"] 0).1 rfl,
   (classify_failure_asymmetry 1 1 (fun _ => BatchOutcome.otherFail) "a" ["b"] 0).2 rfl⟩

/-! ## Classification totality -/

theorem processBatch_glob_perm (i len : Nat) (o : BatchOutcome)
    (h : outcomeGood o len = true) :
    List.Perm ((processBatch i len o).map (fun c => c.global_index))
      ((List.range len).map (fun (j : Nat) => (i : Int) + j)) := by
  cases o with
  | otherFail => simp [outcomeGood] at h
  | parseFail =>
    have : (processBatch i len .parseFail).map (fun c => c.global_index) =
        (List.range len).map (fun (j : Nat) => (i : Int) + j) := by
      simp [processBatch, List.map_map]
    rw [this]
  | ok recs =>
    have hp : List.Perm (recs.map (fun r => r.index))
        ((List.range len).map (fun (j : Nat) => (j : Int) + 1)) := by
      rw [← List.isPerm_iff]
      simpa [outcomeGood] using h
    have h2 := hp.map (fun x : Int => (i : Int) + x - 1)
    have hL : (processBatch i len (.ok recs)).map (fun c => c.global_index) =
        (recs.map (fun r => r.index)).map (fun x : Int => (i : Int) + x - 1) := by
      simp [processBatch, List.map_map]
    have hR : ((List.range len).map (fun (j : Nat) => (j : Int) + 1)).map
        (fun x : Int => (i : Int) + x - 1) =
        (List.range len).map (fun (j : Nat) => (i : Int) + j) := by
      rw [List.map_map]
      apply List.map_congr_left
      intro j _
      simp only [Function.comp]
      ring
    rw [hL, ← hR]
    exact h2

theorem classifyGo_glob_perm (oracle : Nat → BatchOutcome) (b1 : Nat) :
    ∀ (fuel : Nat) (revs : List String) (i : Nat), revs.length ≤ fuel →
      goodOracle oracle b1 fuel revs i = true →
      List.Perm ((classifyGo oracle b1 fuel revs i).map (fun c => c.global_index))
        ((List.range revs.length).map (fun (j : Nat) => (i : Int) + j)) := by
  intro fuel
  induction fuel with
  | zero =>
    intro revs i hlen _
    have hnil : revs = [] := List.length_eq_zero.mp (Nat.le_zero.mp hlen)
    subst hnil
    simp [classifyGo]
  | succ fuel ih =>
    intro revs i hlen hg
    cases revs with
    | nil => simp [classifyGo]
    | cons r rest =>
      simp only [goodOracle, Bool.and_eq_true] at hg
      obtain ⟨hg1, hg2⟩ := hg
      have hlen2 : (rest.drop b1).length ≤ fuel := by
        simp only [List.length_cons] at hlen
        simp only [List.length_drop]
        omega
      have hrec := ih (rest.drop b1) (i + (b1 + 1)) hlen2 hg2
      have hbatch := processBatch_glob_perm i ((r :: rest).take (b1 + 1)).length
        (oracle i) hg1
      show List.Perm ((processBatch i ((r :: rest).take (b1 + 1)).length (oracle i) ++
          classifyGo oracle b1 fuel (rest.drop b1) (i + (b1 + 1))).map
            (fun c => c.global_index)) _
      rw [List.map_append]
      have hsplit : (List.range (r :: rest).length).map (fun (j : Nat) => (i : Int) + j) =
          (List.range ((r :: rest).take (b1 + 1)).length).map
            (fun (j : Nat) => (i : Int) + j) ++
          (List.range (rest.drop b1).length).map
            (fun (j : Nat) => ((i + (b1 + 1) : Nat) : Int) + j) := by
        have hL : (r :: rest).length =
            ((r :: rest).take (b1 + 1)).length + (rest.drop b1).length := by
          simp only [List.length_cons, List.length_take, List.length_drop]
          omega
        rw [hL, List.range_add, List.map_append, List.map_map]
        congr 1
        apply List.map_congr_left
        intro j hj
        simp only [List.mem_range, List.length_drop] at hj
        have ht : ((r :: rest).take (b1 + 1)).length = b1 + 1 := by
          simp only [List.length_cons, List.length_take]
          omega
        simp only [Function.comp, ht]
        push_cast
        ring
      rw [hsplit]
      exact hbatch.append hrec

/-- C4: with no transport failures and every parsed batch response
carrying one record per batch item, classification yields exactly one
record per corpus item whose global indices are a permutation of
`0 .. M-1` (no gaps, no duplicates); every index is then covered by a
record, and the caller's mapping step yields exactly one theme/sentiment
pair per item. -/
theorem classification_totality (reviews : List String) (b1 : Nat)
    (oracle : Nat → BatchOutcome)
    (h : goodOracle oracle b1 reviews.length reviews 0 = true) :
    (classify_reviews_batch reviews (b1 + 1) oracle).length = reviews.length ∧
    List.Perm
      ((classify_reviews_batch reviews (b1 + 1) oracle).map (fun c => c.global_index))
      ((List.range reviews.length).map (fun (j : Nat) => (j : Int))) ∧
    (∀ idx : Nat, idx < reviews.length →
      (classification_map (classify_reviews_batch reviews (b1 + 1) oracle)
        (idx : Int)).isSome = true) ∧
    (extract_assign reviews.length
      (classify_reviews_batch reviews (b1 + 1) oracle)).length = reviews.length := by
  have hcrb : classify_reviews_batch reviews (b1 + 1) oracle =
      classifyGo oracle b1 reviews.length reviews 0 := by
    by_cases hrev : reviews = []
    · subst hrev
      simp [classify_reviews_batch, classifyGo]
    · simp [classify_reviews_batch, hrev]
  have hperm0 := classifyGo_glob_perm oracle b1 reviews.length reviews 0
    (Nat.le_refl _) h
  have hfun : (List.range reviews.length).map (fun (j : Nat) => ((0 : Nat) : Int) + j) =
      (List.range reviews.length).map (fun (j : Nat) => (j : Int)) := by
    apply List.map_congr_left
    intro j _
    simp
  rw [hfun] at hperm0
  rw [hcrb]
  have hperm : List.Perm ((classifyGo oracle b1 reviews.length reviews 0).map
      (fun c => c.global_index))
      ((List.range reviews.length).map (fun (j : Nat) => (j : Int))) := hperm0
  refine ⟨?_, hperm, ?_, ?_⟩
  · have := hperm.length_eq
    simpa using this
  · intro idx hidx
    have hmem : (idx : Int) ∈ (classifyGo oracle b1 reviews.length reviews 0).map
        (fun c => c.global_index) := by
      rw [hperm.mem_iff]
      simp only [List.mem_map, List.mem_range]
      exact ⟨idx, hidx, rfl⟩
    simp only [List.mem_map] at hmem
    obtain ⟨c, hc, hcg⟩ := hmem
    unfold classification_map
    rw [List.find?_isSome]
    refine ⟨c, ?_, ?_⟩
    · simpa using hc
    · simp [hcg]
  · simp [extract_assign]

/-- A concrete run for the totality witness: batch 0 parses with its two
records out of order, the final short batch fails to parse (degraded but
index-complete). -/
def oracleW : Nat → BatchOutcome := fun i =>
  if i = 0 then
    .ok [ { index := 2, theme := some "No Issue", sentiment := some "positive",
            confidence := some "high" }
        , { index := 1, theme := some "App Crashes", sentiment := some "negative",
            confidence := some "high" } ]
  else .parseFail

/-- Witness for classification totality on a three-item corpus with batch
size 2. -/
theorem classification_totality_witness :
    List.Perm
      ((classify_reviews_batch ["a", "b", "c"] 2 oracleW).map (fun c => c.global_index))
      ((List.range 3).map (fun (j : Nat) => (j : Int))) :=
  (classification_totality ["a", "b", "c"] 1 oracleW (by decide)).2.1

/-! ## Theme-name membership of classification records -/

/-- C1 counterexample: in a run whose discovered theme set is
`{App Crashes}`, a batch parse failure synthesizes degraded records with
the hardcoded theme `"User Experience"`, which is neither a theme of the
run nor one of the sentinels `"Unknown"` / `"No Issue"`. -/
theorem classification_theme_counterexample :
    ¬ (∀ c ∈ classify_reviews_batch ["the app keeps crashing"] 20
          (fun _ => BatchOutcome.parseFail),
        c.theme.getD "Unknown" ∈
          (discover_themes ["the app keeps crashing"] 5
              (.ok [("App Crashes", "Crashing and freezing")])).map Prod.fst
            ++ ["Unknown", "No Issue"]) := by
  decide

/-- C1 (amended): degraded records always carry the fallback-catalog
theme `"User Experience"` and backfilled items the sentinel `"Unknown"`,
while parsed records carry whatever theme string the oracle returned
(never validated).  Hence the invariant holds exactly when the run's
theme set contains `"User Experience"` (as the fallback catalog does) and
every oracle-returned record respects the theme set. -/
theorem classification_theme_membership (themes : List (String × String))
    (reviews : List String) (b : Nat) (oracle : Nat → BatchOutcome)
    (hUE : "User Experience" ∈ themes.map Prod.fst)
    (hok : ∀ i recs, oracle i = .ok recs → ∀ r ∈ recs,
      r.theme.getD "Unknown" ∈ themes.map Prod.fst ++ ["Unknown", "No Issue"]) :
    (∀ c ∈ classify_reviews_batch reviews b oracle,
      c.theme.getD "Unknown" ∈ themes.map Prod.fst ++ ["Unknown", "No Issue"]) ∧
    (∀ p ∈ extract_assign reviews.length (classify_reviews_batch reviews b oracle),
      p.1 ∈ themes.map Prod.fst ++ ["Unknown", "No Issue"]) := by
  have hbatch : ∀ i len c, c ∈ processBatch i len (oracle i) →
      c.theme.getD "Unknown" ∈ themes.map Prod.fst ++ ["Unknown", "No Issue"] := by
    intro i len c hc
    cases ho : oracle i with
    | ok recs =>
      rw [ho] at hc
      simp only [processBatch, List.mem_map] at hc
      obtain ⟨r, hr, rfl⟩ := hc
      exact hok i recs ho r hr
    | parseFail =>
      rw [ho] at hc
      simp only [processBatch, List.mem_map, List.mem_range] at hc
      obtain ⟨j, _, rfl⟩ := hc
      simp only [Option.getD_some]
      exact List.mem_append.mpr (Or.inl hUE)
    | otherFail =>
      rw [ho] at hc
      simp [processBatch] at hc
  have hgo : ∀ fuel revs i c, c ∈ classifyGo oracle (b - 1) fuel revs i →
      c.theme.getD "Unknown" ∈ themes.map Prod.fst ++ ["Unknown", "No Issue"] := by
    intro fuel
    induction fuel with
    | zero =>
      intro revs i c hc
      cases revs <;> simp [classifyGo] at hc
    | succ fuel ih =>
      intro revs i c hc
      cases revs with
      | nil => simp [classifyGo] at hc
      | cons r rest =>
        simp only [classifyGo, List.mem_append] at hc
        rcases hc with hc | hc
        · exact hbatch _ _ _ hc
        · exact ih _ _ _ hc
  have hmain : ∀ c ∈ classify_reviews_batch reviews b oracle,
      c.theme.getD "Unknown" ∈ themes.map Prod.fst ++ ["Unknown", "No Issue"] := by
    intro c hc
    unfold classify_reviews_batch at hc
    by_cases hrev : reviews = []
    · simp [hrev] at hc
    · simp only [hrev, if_false] at hc
      cases b with
      | zero => simp at hc
      | succ b1 =>
        exact hgo reviews.length reviews 0 c hc
  refine ⟨hmain, ?_⟩
  intro p hp
  simp only [extract_assign, List.mem_map, List.mem_range] at hp
  obtain ⟨idx, _, hpe⟩ := hp
  cases hcm : classification_map (classify_reviews_batch reviews b oracle) (idx : Int) with
  | some c =>
    rw [hcm] at hpe
    have hcmem : c ∈ classify_reviews_batch reviews b oracle := by
      have := List.mem_of_find?_eq_some hcm
      simpa using this
    rw [← hpe]
    exact hmain c hcmem
  | none =>
    rw [hcm] at hpe
    rw [← hpe]
    simp


/-! ## Quote bounding -/

/-- Priority rank of the sentiment buckets of `extract_quotes`. -/
def sentRank : String → Nat
  | "negative" => 0
  | "neutral" => 1
  | "positive" => 2
  | _ => 3

theorem quoteStep_cases (n : Nat) (s : String) (qs : List Quote) (pr : Row × Nat) :
    quoteStep n s qs pr = qs ∨
    ∃ q, quoteStep n s qs pr = qs ++ [q] ∧ q.sentiment = s ∧
      15 ≤ q.text.length ∧ q.text.length ≤ 200 := by
  unfold quoteStep
  by_cases h1 : n ≤ qs.length
  · left
    simp [h1]
  · by_cases h2 : (filter_pii pr.1.text).length < 15
    · left
      simp [h1, h2]
    · right
      by_cases h3 : 200 < (filter_pii pr.1.text).length
      · refine ⟨{ text := (filter_pii pr.1.text).take 197 ++ "...".toList
                  sentiment := s
                  rating := pr.1.rating
                  date := pr.1.date.map (fun d => d.take 10)
                  source := pr.1.source.getD "Unknown" }, ?_, rfl, ?_, ?_⟩
        · simp [h1, h2, h3]
        · dsimp only
          simp only [List.length_append, List.length_take, List.length_cons,
            List.length_nil]
          have h3len : "...".toList.length = 3 := rfl
          omega
        · dsimp only
          simp only [List.length_append, List.length_take, List.length_cons,
            List.length_nil]
          have h3len : "...".toList.length = 3 := rfl
          omega
      · refine ⟨{ text := filter_pii pr.1.text
                  sentiment := s
                  rating := pr.1.rating
                  date := pr.1.date.map (fun d => d.take 10)
                  source := pr.1.source.getD "Unknown" }, ?_, rfl, ?_, ?_⟩
        · simp [h1, h2, h3]
        · dsimp only
          omega
        · dsimp only
          omega

theorem quoteFold_spec (n : Nat) (s : String) (l : List (Row × Nat)) :
    ∀ qs : List Quote, ∃ new, l.foldl (quoteStep n s) qs = qs ++ new ∧
      ∀ q ∈ new, q.sentiment = s ∧ 15 ≤ q.text.length ∧ q.text.length ≤ 200 := by
  induction l with
  | nil => intro qs; exact ⟨[], by simp, by simp⟩
  | cons x l ih =>
    intro qs
    rcases quoteStep_cases n s qs x with h | ⟨q, hq, hs, hlo, hhi⟩
    · obtain ⟨new, hnew, hp⟩ := ih (quoteStep n s qs x)
      refine ⟨new, ?_, hp⟩
      rw [List.foldl_cons, hnew, h]
    · obtain ⟨new, hnew, hp⟩ := ih (quoteStep n s qs x)
      refine ⟨q :: new, ?_, ?_⟩
      · rw [List.foldl_cons, hnew, hq]
        simp
      · intro p hp2
        rcases List.mem_cons.mp hp2 with rfl | hp3
        · exact ⟨hs, hlo, hhi⟩
        · exact hp p hp3

theorem quoteBucket_spec (tr : List Row) (n : Nat) (qs : List Quote) (s : String) :
    ∃ new, quoteBucket tr n qs s = qs ++ new ∧
      ∀ q ∈ new, q.sentiment = s ∧ 15 ≤ q.text.length ∧ q.text.length ≤ 200 := by
  unfold quoteBucket
  by_cases h1 : n ≤ qs.length
  · exact ⟨[], by simp [h1], by simp⟩
  · by_cases h2 : tr.filter (fun r => r.sentiment_label == s) = []
    · exact ⟨[], by simp [h1, h2], by simp⟩
    · simp only [h1, if_false, h2]
      exact quoteFold_spec n s _ qs

/-- C7: quote selection is bounded — at most `n` quotes, every returned
quote text between 15 and 200 characters after redaction (shorter
candidates were discarded, longer ones truncated), and the sentiment
buckets appear in the order negative, neutral, positive. -/
theorem extract_quotes_bounded (df : Frame) (theme : String) (n : Nat) :
    (extract_quotes df theme n).length ≤ n ∧
    (∀ q ∈ extract_quotes df theme n, 15 ≤ q.text.length ∧ q.text.length ≤ 200) ∧
    (extract_quotes df theme n).Pairwise
      (fun a b => sentRank a.sentiment ≤ sentRank b.sentiment) := by
  unfold extract_quotes
  by_cases htr : df.rows.filter (fun r => r.theme == theme) = []
  · refine ⟨?_, ?_, ?_⟩ <;> simp [htr]
  · simp only [htr, if_false]
    obtain ⟨n1, h1, p1⟩ := quoteBucket_spec (df.rows.filter (fun r => r.theme == theme))
      n [] "negative"
    obtain ⟨n2, h2, p2⟩ := quoteBucket_spec (df.rows.filter (fun r => r.theme == theme))
      n ([] ++ n1) "neutral"
    obtain ⟨n3, h3, p3⟩ := quoteBucket_spec (df.rows.filter (fun r => r.theme == theme))
      n (([] ++ n1) ++ n2) "positive"
    have hfold : ["negative", "neutral", "positive"].foldl
        (quoteBucket (df.rows.filter (fun r => r.theme == theme)) n) [] =
        (([] ++ n1) ++ n2) ++ n3 := by
      simp only [List.foldl_cons, List.foldl_nil]
      rw [h1, h2, h3]
    rw [hfold]
    have hmem : ∀ q ∈ (([] ++ n1) ++ n2) ++ n3,
        15 ≤ q.text.length ∧ q.text.length ≤ 200 := by
      intro q hq
      simp only [List.nil_append, List.mem_append] at hq
      rcases hq with (hq | hq) | hq
      · exact ⟨(p1 q hq).2.1, (p1 q hq).2.2⟩
      · exact ⟨(p2 q hq).2.1, (p2 q hq).2.2⟩
      · exact ⟨(p3 q hq).2.1, (p3 q hq).2.2⟩
    refine ⟨?_, ?_, ?_⟩
    · simp [List.length_take]
    · intro q hq
      exact hmem q (List.mem_of_mem_take hq)
    · apply List.Pairwise.sublist (List.take_sublist _ _)
      have hpair1 : n1.Pairwise
          (fun a b : Quote => sentRank a.sentiment ≤ sentRank b.sentiment) :=
        List.pairwise_of_forall_mem_list (fun a ha b hb => by
          rw [(p1 a ha).1, (p1 b hb).1])
      have hpair2 : n2.Pairwise
          (fun a b : Quote => sentRank a.sentiment ≤ sentRank b.sentiment) :=
        List.pairwise_of_forall_mem_list (fun a ha b hb => by
          rw [(p2 a ha).1, (p2 b hb).1])
      have hpair3 : n3.Pairwise
          (fun a b : Quote => sentRank a.sentiment ≤ sentRank b.sentiment) :=
        List.pairwise_of_forall_mem_list (fun a ha b hb => by
          rw [(p3 a ha).1, (p3 b hb).1])
      rw [List.pairwise_append]
      refine ⟨?_, hpair3, ?_⟩
      · rw [List.pairwise_append]
        refine ⟨by simpa using hpair1, hpair2, ?_⟩
        intro a ha b hb
        simp only [List.nil_append] at ha
        rw [(p1 a ha).1, (p2 b hb).1]
        decide
      · intro a ha b hb
        simp only [List.nil_append, List.mem_append] at ha
        rw [(p3 b hb).1]
        rcases ha with ha | ha
        · rw [(p1 a ha).1]
          decide
        · rw [(p2 a ha).1]
          decide

/-- A one-row frame for the quote-bounding witness. -/
def dfW : Frame :=
  { rows := [{ text := "this is a perfectly fine review text".toList
               theme := "T"
               sentiment_label := "negative"
               rating := none
               date := none
               source := none }]
    has_rating := false }

/-- Witness for quote bounding: the first quote of a concrete run has a
text length inside `[15, 200]`. -/
theorem extract_quotes_bounded_witness :
    15 ≤ ((extract_quotes dfW "T" 3).headD
        { text := [], sentiment := "", rating := none, date := none,
          source := "" }).text.length ∧
    ((extract_quotes dfW "T" 3).headD
        { text := [], sentiment := "", rating := none, date := none,
          source := "" }).text.length ≤ 200 :=
  (extract_quotes_bounded dfW "T" 3).2.1 _ (by decide)

/-! ## Deterministic action fallback -/

theorem chooseTemplate_title_ne (name : String) : (chooseTemplate name).title ≠ "" := by
  unfold chooseTemplate
  cases h : action_templates.find?
      (fun kv => containsSub (toLowerList kv.1.toList) (toLowerList name.toList)) with
  | none => decide
  | some kv =>
    have hm := List.mem_of_find?_eq_some h
    simp only [action_templates, List.mem_cons, List.mem_singleton] at hm
    rcases hm with rfl | rfl | rfl | rfl | rfl | hm
    · decide
    · decide
    · decide
    · decide
    · decide
    · simp at hm

/-- C8: the deterministic action fallback is total and returns exactly
`min (length themes) 3` actions; pointwise, each action has a non-empty
title, addresses its theme, and has priority `"high"` exactly when that
theme's negative-sentiment count exceeds 10, `"medium"` otherwise (so the
priority is always one of the two). -/
theorem fallback_actions_total (themes : List ThemeStat) :
    (generate_fallback_actions themes).length = min themes.length 3 ∧
    List.Forall₂ (fun (a : ActionItem) (t : ThemeStat) =>
        a.title ≠ "" ∧ a.addresses_theme = t.name ∧
        a.priority = (if 10 < t.negative_count then "high" else "medium"))
      (generate_fallback_actions themes) (themes.take 3) ∧
    (∀ a ∈ generate_fallback_actions themes,
      a.priority = "high" ∨ a.priority = "medium") := by
  have hmap : ∀ l : List ThemeStat,
      List.Forall₂ (fun (a : ActionItem) (t : ThemeStat) =>
        a.title ≠ "" ∧ a.addresses_theme = t.name ∧
        a.priority = (if 10 < t.negative_count then "high" else "medium"))
      (l.map (fun theme =>
        { title := (chooseTemplate theme.name).title
          description := (chooseTemplate theme.name).description
          priority := if 10 < theme.negative_count then "high" else "medium"
          effort := (chooseTemplate theme.name).effort
          addresses_theme := theme.name })) l := by
    intro l
    induction l with
    | nil => exact List.Forall₂.nil
    | cons t l ih =>
      exact List.Forall₂.cons ⟨chooseTemplate_title_ne t.name, rfl, rfl⟩ ih
  refine ⟨?_, ?_, ?_⟩
  · simp only [generate_fallback_actions, List.length_map, List.length_take]
    omega
  · exact hmap (themes.take 3)
  · intro a ha
    simp only [generate_fallback_actions, List.mem_map] at ha
    obtain ⟨t, _, rfl⟩ := ha
    by_cases hneg : 10 < t.negative_count
    · left
      simp [hneg]
    · right
      simp [hneg]

/-- A concrete two-theme list for the action-fallback witness. -/
def themesW : List ThemeStat :=
  [ { name := "Customer Support issues", count := 12, percentage := 0,
      avg_rating := none, sentiments := [("negative", 12)], negative_count := 12 }
  , { name := "Other", count := 2, percentage := 0,
      avg_rating := none, sentiments := [("negative", 2)], negative_count := 2 } ]

/-- Witness for the action fallback on `themesW`. -/
theorem fallback_actions_total_witness :
    (generate_fallback_actions themesW).length = min 2 3 ∧
    (((generate_fallback_actions themesW).headD
        { title := "", description := "", priority := "", effort := "",
          addresses_theme := "" }).priority = "high" ∨
     ((generate_fallback_actions themesW).headD
        { title := "", description := "", priority := "", effort := "",
          addresses_theme := "" }).priority = "medium") :=
  ⟨(fallback_actions_total themesW).1,
   (fallback_actions_total themesW).2.2 _ (by decide)⟩

/-! ## Properties of the stable sort and of `value_counts` -/

theorem stableInsert_perm {α : Type} (lt : α → α → Bool) (x : α) (acc : List α) :
    List.Perm (stableInsert lt x acc) (x :: acc) := by
  induction acc with
  | nil => simp [stableInsert]
  | cons y ys ih =>
    unfold stableInsert
    by_cases h : lt x y = true
    · simp [h]
    · simp only [h, if_false]
      exact (ih.cons y).trans (List.Perm.swap x y ys)

theorem stableInsert_mem {α : Type} (lt : α → α → Bool) (x z : α) (acc : List α) :
    z ∈ stableInsert lt x acc ↔ z = x ∨ z ∈ acc := by
  rw [(stableInsert_perm lt x acc).mem_iff]
  simp

theorem stableSort_perm {α : Type} (lt : α → α → Bool) (l : List α) :
    List.Perm (stableSort lt l) l := by
  have hgen : ∀ (l acc : List α),
      List.Perm (l.foldl (fun a x => stableInsert lt x a) acc) (acc ++ l) := by
    intro l
    induction l with
    | nil => intro acc; simp
    | cons x l ih =>
      intro acc
      rw [List.foldl_cons]
      refine (ih (stableInsert lt x acc)).trans ?_
      have h1 : List.Perm (stableInsert lt x acc ++ l) ((x :: acc) ++ l) :=
        (stableInsert_perm lt x acc).append_right l
      refine h1.trans ?_
      simpa using List.perm_middle.symm
  simpa using hgen l []

/-- The distinct-keys list is duplicate-free. -/
theorem firstKeys_nodup (l : List String) : (firstKeys l).Nodup := by
  have hgen : ∀ (l acc : List String), acc.Nodup →
      (l.foldl (fun acc t => if t ∈ acc then acc else acc ++ [t]) acc).Nodup := by
    intro l
    induction l with
    | nil => intro acc h; simpa using h
    | cons x l ih =>
      intro acc h
      rw [List.foldl_cons]
      by_cases hx : x ∈ acc
      · simp only [hx, if_true]
        exact ih acc h
      · simp only [hx, if_false]
        refine ih (acc ++ [x]) ?_
        simp [List.nodup_append, h, hx]
  exact hgen l [] List.nodup_nil

theorem firstKeys_mem (l : List String) (t : String) (h : t ∈ firstKeys l) : t ∈ l := by
  have hgen : ∀ (l acc : List String),
      t ∈ l.foldl (fun acc t => if t ∈ acc then acc else acc ++ [t]) acc →
      t ∈ acc ∨ t ∈ l := by
    intro l
    induction l with
    | nil =>
      intro acc h
      simp only [List.foldl_nil] at h
      exact Or.inl h
    | cons x l ih =>
      intro acc h
      rw [List.foldl_cons] at h
      by_cases hx : x ∈ acc
      · simp only [hx, if_true] at h
        rcases ih acc h with h2 | h2
        · exact Or.inl h2
        · exact Or.inr (List.mem_cons_of_mem x h2)
      · simp only [hx, if_false] at h
        rcases ih (acc ++ [x]) h with h2 | h2
        · rcases List.mem_append.mp h2 with h3 | h3
          · exact Or.inl h3
          · simp only [List.mem_singleton] at h3
            subst h3
            exact Or.inr (List.mem_cons_self _ _)
        · exact Or.inr (List.mem_cons_of_mem x h2)
  rcases hgen l [] h with h2 | h2
  · simp at h2
  · exact h2

/-- In a duplicate-free list, earlier elements have smaller indices. -/
theorem nodup_pairwise_indexOf (K : List String) (h : K.Nodup) :
    K.Pairwise (fun a b => K.indexOf a < K.indexOf b) := by
  induction K with
  | nil => exact List.Pairwise.nil
  | cons k K ih =>
    rw [List.nodup_cons] at h
    refine List.Pairwise.cons ?_ ?_
    · intro b hb
      rw [List.indexOf_cons_self]
      have hbk : k ≠ b := by
        intro he
        rw [he] at h
        exact h.1 hb
      rw [List.indexOf_cons_ne K hbk]
      exact Nat.succ_pos _
    · refine (ih h.2).imp_of_mem ?_
      intro a b ha hb hlt
      have hka : k ≠ a := fun he => h.1 (he ▸ ha)
      have hkb : k ≠ b := fun he => h.1 (he ▸ hb)
      rw [List.indexOf_cons_ne K hka, List.indexOf_cons_ne K hkb]
      exact Nat.succ_lt_succ hlt

/-- Stable insertion by descending count: the result stays sorted by
count descending, and a tie keeps the earlier-inserted element first
(`R` is the input precedence the stability refers to). -/
theorem stableInsert_count_pairwise (R : String × Nat → String × Nat → Prop)
    (x : String × Nat) (acc : List (String × Nat))
    (hacc : acc.Pairwise (fun a b => b.2 < a.2 ∨ (a.2 = b.2 ∧ R a b)))
    (hR : ∀ y ∈ acc, R y x) :
    (stableInsert (fun a b => b.2 < a.2) x acc).Pairwise
      (fun a b => b.2 < a.2 ∨ (a.2 = b.2 ∧ R a b)) := by
  induction acc with
  | nil =>
    simp [stableInsert]
  | cons y ys ih =>
    unfold stableInsert
    by_cases h : y.2 < x.2
    · simp only [h, decide_eq_true_eq, if_true, decide_eq_true h]
      refine List.Pairwise.cons ?_ hacc
      intro b hb
      rcases List.mem_cons.mp hb with rfl | hb2
      · exact Or.inl h
      · have hy := (List.pairwise_cons.mp hacc).1 b hb2
        left
        rcases hy with h2 | h2
        · omega
        · omega
    · simp only [h, decide_eq_false h, if_false]
      obtain ⟨hy_all, hys⟩ := List.pairwise_cons.mp hacc
      refine List.Pairwise.cons ?_
        (ih hys (fun z hz => hR z (List.mem_cons_of_mem _ hz)))
      intro b hb
      rcases (stableInsert_mem _ x b ys).mp hb with rfl | hb2
      · by_cases he : y.2 = b.2
        · exact Or.inr ⟨he, hR y (List.mem_cons_self _ _)⟩
        · left
          omega
      · exact hy_all b hb2

/-- The stable sort by descending count of an `R`-ordered input is
sorted descending with count ties still `R`-ordered. -/
theorem stableSort_count_pairwise (R : String × Nat → String × Nat → Prop)
    (l : List (String × Nat)) (hl : l.Pairwise R) :
    (stableSort (fun a b => b.2 < a.2) l).Pairwise
      (fun a b => b.2 < a.2 ∨ (a.2 = b.2 ∧ R a b)) := by
  have hgen : ∀ (l acc : List (String × Nat)), l.Pairwise R →
      acc.Pairwise (fun a b => b.2 < a.2 ∨ (a.2 = b.2 ∧ R a b)) →
      (∀ y ∈ acc, ∀ x ∈ l, R y x) →
      (l.foldl (fun a x => stableInsert (fun a b => b.2 < a.2) x a) acc).Pairwise
        (fun a b => b.2 < a.2 ∨ (a.2 = b.2 ∧ R a b)) := by
    intro l
    induction l with
    | nil =>
      intro acc _ hacc _
      simpa using hacc
    | cons x l ih =>
      intro acc hl hacc hcross
      rw [List.foldl_cons]
      obtain ⟨hx_all, hl2⟩ := List.pairwise_cons.mp hl
      refine ih _ hl2 ?_ ?_
      · exact stableInsert_count_pairwise R x acc hacc
          (fun y hy => hcross y hy x (List.mem_cons_self _ _))
      · intro y hy z hz
        rcases (stableInsert_mem _ x y acc).mp hy with rfl | hy2
        · exact hx_all z hz
        · exact hcross y hy2 z (List.mem_cons_of_mem _ hz)
  exact hgen l [] hl List.Pairwise.nil (by simp)

theorem value_counts_mem (l : List String) (pr : String × Nat)
    (h : pr ∈ value_counts l) :
    pr.1 ∈ firstKeys l ∧ pr.2 = (l.filter (fun x => x == pr.1)).length := by
  unfold value_counts at h
  have h2 := (stableSort_perm _ _).mem_iff.mp h
  simp only [List.mem_map] at h2
  obtain ⟨k, hk, he⟩ := h2
  rw [← he]
  exact ⟨hk, rfl⟩

theorem value_counts_pairwise (l : List String) :
    (value_counts l).Pairwise (fun a b => b.2 < a.2 ∨
      (a.2 = b.2 ∧ (firstKeys l).indexOf a.1 < (firstKeys l).indexOf b.1)) := by
  unfold value_counts
  refine stableSort_count_pairwise _ _ ?_
  rw [List.pairwise_map]
  exact nodup_pairwise_indexOf _ (firstKeys_nodup l)

/-! ## Top-theme selection -/

/-- Two classified rows with distinct themes, each mentioned once; the
theme discovered second appears first in the data. -/
def tieFrame : Frame :=
  { rows :=
      [ { text := "withdrawal stuck for days now".toList, theme := "B",
          sentiment_label := "negative", rating := none, date := none, source := none }
      , { text := "app crashes on opening the page".toList, theme := "A",
          sentiment_label := "negative", rating := none, date := none, source := none } ]
    has_rating := false }

/-- C6 counterexample: with discovery order `[A, B]` and equal counts,
the spec-side ranking puts `A` first, but `select_top_themes` orders the
tie by the data alone (first appearance), returning `B` first — the code
has no access to the discovery order, so discovery-order tie-breaking
cannot hold. -/
theorem select_top_themes_tie_counterexample :
    (select_top_themes tieFrame 3).map (fun t => t.name) = ["B", "A"] ∧
    claimedTopThemeNames ["A", "B"] tieFrame.rows 3 = ["A", "B"] ∧
    (select_top_themes tieFrame 3).map (fun t => t.name) ≠
      claimedTopThemeNames ["A", "B"] tieFrame.rows 3 := by
  refine ⟨by decide, by decide, by decide⟩

/-- The corpus of the spec's ranking example: theme counts
`App Crashes = 10`, `Withdrawal Delays = 7`, `Poor Support = 5`,
`No Issue = 20` (42 rows in total). -/
def exampleFrame : Frame :=
  { rows :=
      List.replicate 10
        { text := "the app crashes a lot these days".toList, theme := "App Crashes",
          sentiment_label := "negative", rating := none, date := none, source := none } ++
      List.replicate 7
        { text := "withdrawal is delayed again".toList, theme := "Withdrawal Delays",
          sentiment_label := "negative", rating := none, date := none, source := none } ++
      List.replicate 5
        { text := "support does not answer".toList, theme := "Poor Support",
          sentiment_label := "negative", rating := none, date := none, source := none } ++
      List.replicate 20
        { text := "all good, love the app".toList, theme := "No Issue",
          sentiment_label := "positive", rating := none, date := none, source := none }
    has_rating := false }

/-- C6 (amended): top-theme selection excludes the sentinels, sorts
descending by count with ties in the order the theme first appears in the
classified data (not discovery order), truncates to `n`, and computes
each percentage over the full corpus size rounded to 1 decimal; on the
spec's example counts it returns exactly App Crashes, Withdrawal Delays,
Poor Support in that order. -/
theorem select_top_themes_ranking (df : Frame) (n : Nat) :
    (select_top_themes df n).length ≤ n ∧
    (∀ t ∈ select_top_themes df n, t.name ≠ "Unknown" ∧ t.name ≠ "No Issue") ∧
    (select_top_themes df n).Pairwise (fun a b =>
      b.count < a.count ∨ (a.count = b.count ∧
        (firstKeys ((df.rows.filter (fun r =>
          !(r.theme == "Unknown" || r.theme == "No Issue"))).map
            (fun r => r.theme))).indexOf a.name <
        (firstKeys ((df.rows.filter (fun r =>
          !(r.theme == "Unknown" || r.theme == "No Issue"))).map
            (fun r => r.theme))).indexOf b.name)) ∧
    (∀ t ∈ select_top_themes df n,
      t.percentage = pyRound1 ((t.count : ℚ) / (df.rows.length : ℚ) * 100) ∧
      t.count = (df.rows.filter (fun r => r.theme == t.name)).length) ∧
    (select_top_themes exampleFrame 3).map (fun t => t.name) =
      ["App Crashes", "Withdrawal Delays", "Poor Support"] := by
  have hex : (select_top_themes exampleFrame 3).map (fun t => t.name) =
      ["App Crashes", "Withdrawal Delays", "Poor Support"] := by decide
  by_cases hiss : df.rows.filter
      (fun r => !(r.theme == "Unknown" || r.theme == "No Issue")) = []
  · have hsel0 : select_top_themes df n = [] := by
      simp only [select_top_themes]
      rw [if_pos hiss]
    refine ⟨?_, ?_, ?_, ?_, hex⟩ <;> simp [hsel0]
  · have hsel : select_top_themes df n =
        ((value_counts ((df.rows.filter (fun r =>
            !(r.theme == "Unknown" || r.theme == "No Issue"))).map
              (fun r => r.theme))).take n).map (fun pr =>
          { name := pr.1
            count := pr.2
            percentage := pyRound1 ((pr.2 : ℚ) / (df.rows.length : ℚ) * 100)
            avg_rating :=
              if df.has_rating then
                let rs := (df.rows.filter (fun r =>
                  !(r.theme == "Unknown" || r.theme == "No Issue"))).filter
                    (fun r => r.theme == pr.1) |>.filterMap (fun r => r.rating)
                if rs = [] then none
                else some (pyRound1 ((rs.map (fun x => (x : ℚ))).sum / (rs.length : ℚ)))
              else none
            sentiments := value_counts (((df.rows.filter (fun r =>
              !(r.theme == "Unknown" || r.theme == "No Issue"))).filter
                (fun r => r.theme == pr.1)).map (fun r => r.sentiment_label))
            negative_count := (((value_counts (((df.rows.filter (fun r =>
              !(r.theme == "Unknown" || r.theme == "No Issue"))).filter
                (fun r => r.theme == pr.1)).map
                  (fun r => r.sentiment_label))).lookup "negative").getD 0) }) := by
      simp only [select_top_themes, hiss, if_false]
    have hname : ∀ pr : String × Nat,
        pr ∈ value_counts ((df.rows.filter (fun r =>
          !(r.theme == "Unknown" || r.theme == "No Issue"))).map (fun r => r.theme)) →
        (!(pr.1 == "Unknown" || pr.1 == "No Issue")) = true := by
      intro pr hpr
      have h1 := (value_counts_mem _ _ hpr).1
      have h2 := firstKeys_mem _ _ h1
      simp only [List.mem_map] at h2
      obtain ⟨r, hr, hre⟩ := h2
      have := List.of_mem_filter hr
      rw [← hre]
      exact this
    refine ⟨?_, ?_, ?_, ?_, hex⟩
    · rw [hsel]
      simp only [List.length_map, List.length_take]
      omega
    · rw [hsel]
      intro t ht
      simp only [List.mem_map] at ht
      obtain ⟨pr, hpr, rfl⟩ := ht
      have hk := hname pr (List.mem_of_mem_take hpr)
      have hk2 : ¬pr.1 = "Unknown" ∧ ¬pr.1 = "No Issue" := by simpa using hk
      exact ⟨hk2.1, hk2.2⟩
    · rw [hsel, List.pairwise_map]
      refine List.Pairwise.imp ?_
        (List.Pairwise.sublist (List.take_sublist n _) (value_counts_pairwise _))
      intro a b hab
      exact hab
    · rw [hsel]
      intro t ht
      simp only [List.mem_map] at ht
      obtain ⟨pr, hpr, rfl⟩ := ht
      have hmem := List.mem_of_mem_take hpr
      have hk := hname pr hmem
      have hcount := (value_counts_mem _ _ hmem).2
      refine ⟨rfl, ?_⟩
      show pr.2 = _
      rw [hcount]
      rw [List.filter_map, List.length_map, List.filter_filter]
      apply congrArg List.length
      apply List.filter_congr
      intro r _
      by_cases hq : (r.theme == pr.1) = true
      · have hrth : r.theme = pr.1 := by
          simpa using hq
        simp [Function.comp, hq, hrth, hk]
      · simp only [Function.comp] at hq ⊢
        simp [hq]

theorem headD_mem {α : Type} (l : List α) (d : α) (h : l ≠ []) : l.headD d ∈ l := by
  cases l with
  | nil => exact absurd rfl h
  | cons a t => exact List.mem_cons_self a t

/-- Witness for the top-theme ranking on the spec example corpus: the
first selected theme is not a sentinel, and its percentage is the rounded
share of the full 42-row corpus. -/
theorem select_top_themes_ranking_witness :
    (((select_top_themes exampleFrame 3).headD
        { name := "", count := 0, percentage := 0, avg_rating := none,
          sentiments := [], negative_count := 0 }).name ≠ "Unknown" ∧
     ((select_top_themes exampleFrame 3).headD
        { name := "", count := 0, percentage := 0, avg_rating := none,
          sentiments := [], negative_count := 0 }).name ≠ "No Issue") ∧
    ((select_top_themes exampleFrame 3).headD
        { name := "", count := 0, percentage := 0, avg_rating := none,
          sentiments := [], negative_count := 0 }).percentage =
      pyRound1 ((((select_top_themes exampleFrame 3).headD
        { name := "", count := 0, percentage := 0, avg_rating := none,
          sentiments := [], negative_count := 0 }).count : ℚ) /
        (exampleFrame.rows.length : ℚ) * 100) := by
  have hne : select_top_themes exampleFrame 3 ≠ [] :=
    List.length_pos.mp (by decide)
  exact ⟨(select_top_themes_ranking exampleFrame 3).2.1 _ (headD_mem _ _ hne),
    ((select_top_themes_ranking exampleFrame 3).2.2.2.1 _ (headD_mem _ _ hne)).1⟩

/-- Witness for the amended theme-membership invariant: the head record
of a run on the fallback catalog (which contains `"User Experience"`)
whose single batch fails to parse. -/
theorem classification_theme_membership_witness :
    ((classify_reviews_batch ["review one"] 20 (fun _ => BatchOutcome.parseFail)).headD
        { index := 0, global_index := 0, theme := none, sentiment := none,
          confidence := none }).theme.getD "Unknown" ∈
      FALLBACK_THEMES.map Prod.fst ++ ["Unknown", "No Issue"] := by
  have hne : classify_reviews_batch ["review one"] 20
      (fun _ => BatchOutcome.parseFail) ≠ [] :=
    List.length_pos.mp (by decide)
  exact (classification_theme_membership FALLBACK_THEMES ["review one"] 20
    (fun _ => BatchOutcome.parseFail) (by decide)
    (fun i recs h => by simp at h)).1 _ (headD_mem _ _ hne)
